import Mathlib

/-!
Verification of the Rewrite Safety & Retrieval Engine of the
tobacco-writing-system repository.

The Python sources are shallowly embedded here:
* `src/core/constraint_decoder.py`   (`ConstraintDecoder`)
* `src/core/xhf_sample_retriever.py` (`XHFSampleRetriever`, BM25)
* `src/knowledge_base/intelligent_retriever.py` (`IntelligentRetriever`, BM25)
* `src/core/xhf_quality_checker.py`  (`XHFQualityChecker`)
* `src/core/postprocess.py`          (`RewritePostProcessor`)

Texts are modelled as `List Char` (Python `str` indexing, slicing and
`len` act on code points, exactly as `List Char` does).  Python floats
are modelled as exact arithmetic (`ℚ`/`ℝ`); `math.log` is `Real.log`.
The concrete regular expressions of the sources are embedded as direct
scanning functions with Python `re` semantics (leftmost match, greedy
quantifiers with backtracking, non-overlapping `finditer` scan).
-/

namespace Tobacco

/-- Texts are lists of unicode code points, as in Python. -/
abbrev Str := List Char

/-- The `{` character (written via its code point). -/
def lb : Char := Char.ofNat 123

/-- The `}` character (written via its code point). -/
def rb : Char := Char.ofNat 125

/-! ### Python string primitives -/

/-- Does `pat` occur at the start of `s`?  (`s.startswith(pat)`). -/
def startsWith : Str → Str → Bool
  | _, [] => true
  | [], _ :: _ => false
  | c :: s, p :: pat => c == p && startsWith s pat

/-- Index of the leftmost occurrence of `pat` in `s`, if any
(`s.find(pat)` for a nonempty `pat`). -/
def findSub (s pat : Str) : Option Nat :=
  match s with
  | [] => if pat = [] then some 0 else none
  | _ :: s' =>
    if startsWith s pat then some 0
    else (findSub s' pat).map (· + 1)

/-- `pat in s` (Python substring containment). -/
def isSubstr (pat s : Str) : Bool := (findSub s pat).isSome

/-- `s.replace(old, new, 1)`: replace the leftmost occurrence only.
Entity values and placeholders are never empty, so the empty pattern
is mapped to the identity. -/
def replaceFirst (s old new : Str) : Str :=
  if old = [] then s
  else
    match findSub s old with
    | none => s
    | some i => s.take i ++ new ++ s.drop (i + old.length)

/-- Fuel-indexed worker for `replaceAll`: each replacement consumes at
least one character of `s`, so fuel `s.length + 1` always suffices and
the fuel-out branch is unreachable.  (The fuel makes the recursion
structural, hence kernel-reducible.) -/
def replaceAllF (old new : Str) : Nat → Str → Str
  | 0, s => s
  | fuel + 1, s =>
    if old = [] then s
    else
      match findSub s old with
      | none => s
      | some i => s.take i ++ new ++ replaceAllF old new fuel (s.drop (i + old.length))

/-- `s.replace(old, new)`: replace every (non-overlapping, left-to-right)
occurrence; the replacement text is not rescanned. -/
def replaceAll (s old new : Str) : Str := replaceAllF old new (s.length + 1) s

/-- Count of leading characters satisfying `p` (a maximal greedy run). -/
def countLeading (p : Char → Bool) : Str → Nat
  | [] => 0
  | c :: s => if p c then countLeading p s + 1 else 0

/-- ASCII digit, `\d` over the texts in scope. -/
def isDigit10 (c : Char) : Bool := 48 ≤ c.toNat && c.toNat ≤ 57

/-- CJK unified ideograph, the `一-龥` class of the sources. -/
def isCJK (c : Char) : Bool := 0x4e00 ≤ c.toNat && c.toNat ≤ 0x9fa5

/-- `A-Za-z`. -/
def isAsciiLetter (c : Char) : Bool :=
  (65 ≤ c.toNat && c.toNat ≤ 90) || (97 ≤ c.toNat && c.toNat ≤ 122)

/-- Fuel-indexed worker for `finditer`; every scan step consumes at
least one character, so fuel `s.length` suffices and the fuel-out branch
is unreachable.  (Fuel keeps the recursion structural, hence
kernel-reducible.) -/
def finditerF (m : Str → Option Nat) : Nat → Str → List Str
  | 0, _ => []
  | _ + 1, [] => []
  | fuel + 1, c :: rest =>
    match m (c :: rest) with
    | none => finditerF m fuel rest
    | some n => (c :: rest).take n :: finditerF m fuel (rest.drop (n - 1))

/-- Generic `re.finditer` scan: at each position try the match function
(which returns the match length); on a match, emit it and continue after
it, otherwise advance one character.  Every embedded pattern matches at
least one character, so `n - 1` below equals `n`-many characters past
the current one. -/
def finditer (m : Str → Option Nat) (s : Str) : List Str := finditerF m s.length s

/-! ### The compiled patterns of `ConstraintDecoder.__init__`

`NUMBER = \d+(?:\.\d+)?(?:[万亿千百]?元|%|万|亿|千|百|个|项|条|人|次)?`
`DATE   = \d{4}年\d{1,2}月\d{1,2}日|\d{1,2}月\d{1,2}日|\d{4}年\d{1,2}月|\d{4}年`
`ORG    = [一-龥A-Za-z0-9]{2,20}(?:烟草(?:专卖)?局|烟草公司|烟草总公司)`
(the default ORG pattern: `config/column_rules.yaml` is absent from the
repository, so `_load_config` falls back to `{}` and `_build_org_pattern`
returns the default). -/

/-- Exactly four digits followed by `c`; returns the rest. -/
def digits4Then (c : Char) : Str → Option Str
  | a :: b :: d :: e :: x :: r =>
    if isDigit10 a && isDigit10 b && isDigit10 d && isDigit10 e && x == c then some r
    else none
  | _ => none

/-- `\d{1,2}` (greedy, with backtracking) followed by `c`; returns the rest. -/
def digits1or2Then (c : Char) : Str → Option Str
  | d1 :: d2 :: x :: r =>
    if isDigit10 d1 && isDigit10 d2 && x == c then some r
    else if isDigit10 d1 && d2 == c then some (x :: r)
    else none
  | d1 :: x :: r => if isDigit10 d1 && x == c then some r else none
  | _ => none

/-- The DATE pattern at the current position: the four alternatives are
tried in the order they appear in the source. -/
def matchDate (s : Str) : Option Nat :=
  let alt1 := ((digits4Then (Char.ofNat 0x5e74) s).bind
    (digits1or2Then (Char.ofNat 0x6708))).bind (digits1or2Then (Char.ofNat 0x65e5))
  let alt2 := (digits1or2Then (Char.ofNat 0x6708) s).bind
    (digits1or2Then (Char.ofNat 0x65e5))
  let alt3 := (digits4Then (Char.ofNat 0x5e74) s).bind
    (digits1or2Then (Char.ofNat 0x6708))
  let alt4 := digits4Then (Char.ofNat 0x5e74) s
  match alt1.orElse (fun _ => alt2) |>.orElse (fun _ => alt3) |>.orElse (fun _ => alt4) with
  | some r => some (s.length - r.length)
  | none => none

/-- One of `万亿千百` (the class inside the optional unit of NUMBER). -/
def isWanYiQianBai (c : Char) : Bool :=
  c == '万' || c == '亿' || c == '千' || c == '百'

/-- One of the single-character unit alternatives `万|亿|千|百|个|项|条|人|次`. -/
def isUnit1 (c : Char) : Bool :=
  c == '万' || c == '亿' || c == '千' || c == '百' || c == '个' ||
  c == '项' || c == '条' || c == '人' || c == '次'

/-- The optional unit group `(?:[万亿千百]?元|%|万|亿|千|百|个|项|条|人|次)?`:
returns the rest after consuming the unit (or the input unchanged).
Alternatives are tried in source order; `[万亿千百]?` is greedy. -/
def unitOpt : Str → Str
  | a :: b :: r =>
    if isWanYiQianBai a && b == '元' then r
    else if a == '元' || a == '%' || isUnit1 a then b :: r
    else a :: b :: r
  | [a] => if a == '元' || a == '%' || isUnit1 a then [] else [a]
  | [] => []

/-- Length consumed by `(?:\.\d+)?`: a dot must be followed by at least
one digit (greedy), otherwise nothing is consumed. -/
def fracLen : Str → Nat
  | [] => 0
  | x :: t =>
    if x == '.' then
      let m := countLeading isDigit10 t
      if m = 0 then 0 else m + 1
    else 0

/-- The NUMBER pattern at the current position: `\d+` (greedy), the
optional fraction, the optional unit. -/
def matchNumber (s : Str) : Option Nat :=
  let n1 := countLeading isDigit10 s
  if n1 = 0 then none
  else
    let f := fracLen (s.drop n1)
    let r2 := s.drop (n1 + f)
    some (n1 + f + (r2.length - (unitOpt r2).length))

/-- The suffix group `(?:烟草(?:专卖)?局|烟草公司|烟草总公司)` of the default ORG
pattern; alternatives (and the greedy optional `专卖`) in regex order. -/
def orgSuffix : Str → Option Str
  | a :: b :: rest =>
    if a == '烟' && b == '草' then
      match rest with
      | c :: d :: e :: r =>
        if c == '专' && d == '卖' && e == '局' then some r
        else if c == '局' then some (d :: e :: r)
        else if c == '公' && d == '司' then some (e :: r)
        else if c == '总' && d == '公' && e == '司' then some r
        else none
      | c :: d :: r =>
        if c == '局' then some (d :: r)
        else if c == '公' && d == '司' then some r
        else none
      | [c] => if c == '局' then some [] else none
      | [] => none
    else none
  | _ => none

/-- Character class `[一-龥A-Za-z0-9]` of the default ORG pattern. -/
def isOrgClass (c : Char) : Bool := isCJK c || isAsciiLetter c || isDigit10 c

/-- Greedy `{2,20}` of the ORG pattern: try prefix lengths from the
largest possible down to 2, requiring the suffix group after each. -/
def orgTry (s : Str) : Nat → Option Nat
  | k + 2 =>
    match orgSuffix (s.drop (k + 2)) with
    | some r => some (s.length - r.length)
    | none => orgTry s (k + 1)
  | _ => none

/-- The default ORG pattern at the current position. -/
def matchOrg (s : Str) : Option Nat :=
  orgTry s (min 20 (countLeading isOrgClass s))

/-- Key characters `[A-Z_0-9]` of the leak-detection pattern. -/
def isKeyChar (c : Char) : Bool :=
  (65 ≤ c.toNat && c.toNat ≤ 90) || c == '_' || isDigit10 c

/-- The leak pattern `\{\{([A-Z_0-9]+)\}\}` at the current position:
returns total match length and the captured group. -/
def matchLeak : Str → Option (Nat × Str)
  | a :: b :: rest =>
    if a == lb && b == lb then
      let n := countLeading isKeyChar rest
      if n = 0 then none
      else
        match rest.drop n with
        | c :: d :: _ => if c == rb && d == rb then some (n + 4, rest.take n) else none
        | _ => none
    else none
  | _ => none

/-- Fuel-indexed worker for `leakScan` (same fuel discipline as
`finditerF`). -/
def leakScanF : Nat → Str → List Str
  | 0, _ => []
  | _ + 1, [] => []
  | fuel + 1, c :: rest =>
    match matchLeak (c :: rest) with
    | none => leakScanF fuel rest
    | some p => p.2 :: leakScanF fuel (rest.drop (p.1 - 1))

/-- `pattern.findall(text)` for the leak pattern (captured groups). -/
def leakScan (s : Str) : List Str := leakScanF s.length s

/-! ### `ConstraintDecoder` operations -/

/-- The `(entity_type, value, placeholder_key)` tuples of
`ConstraintDecoder.extract_entities` (spec: `ExtractedEntity`). -/
structure Entity where
  etype : String
  value : Str
  key : Str
deriving DecidableEq, Repr

/-- `f"DATE_{n}"`-style keys. -/
def natKey (t : String) (n : Nat) : Str := t.data ++ (Nat.repr n).data

/-- All DATE matches of a text, in scan order. -/
def dateValues (text : Str) : List Str := finditer matchDate text

/-- All NUMBER matches of a text, in scan order. -/
def numberValues (text : Str) : List Str := finditer matchNumber text

/-- All default-ORG-pattern matches of a text, in scan order. -/
def orgRegexValues (text : Str) : List Str := finditer matchOrg text

/-- Keep the first occurrence of each value, dropping values already in
`seen` (the growing `extracted_orgs` set of step 4 of the source). -/
def dedupAgainst (seen : List Str) : List Str → List Str
  | [] => []
  | v :: vs =>
    if seen.contains v then dedupAgainst seen vs
    else v :: dedupAgainst (v :: seen) vs

/-- Turn extracted values into entities with sequential keys
`f"{t}_{count_so_far + 1}"`, starting the count at `off` (the per-type
counting of the extraction loops). -/
def withKeys (t : String) (off : Nat) : List Str → List Entity
  | [] => []
  | v :: vs => Entity.mk t v (natKey (t ++ "_") (off + 1)) :: withKeys t (off + 1) vs

/-- `ConstraintDecoder.extract_entities`.  `whitelist` is the configured
`whitelists.orgs` set (empty under the default configuration, since
`config/column_rules.yaml` is absent from the repository). -/
def extractEntities (whitelist : List Str) (text : Str) : List Entity :=
  let dates := withKeys "DATE" 0 (dateValues text)
  let nums := withKeys "NUM" 0
    ((numberValues text).filter (fun v => !((dateValues text).contains v)))
  let wlVals := whitelist.filter (fun o => isSubstr o text)
  let wlOrgs := withKeys "ORG" 0 wlVals
  let regexOrgs := withKeys "ORG" wlVals.length
    (dedupAgainst wlVals (orgRegexValues text))
  dates ++ nums ++ wlOrgs ++ regexOrgs

/-- `f"{{{{{key}}}}}"`: the placeholder token of a key. -/
def placeholderOf (key : Str) : Str := [lb, lb] ++ key ++ [rb, rb]

/-- Stable insertion keeping descending value length (ties keep original
order, as Python's stable `sorted(..., key=len, reverse=True)`). -/
def insertDesc (e : Entity) : List Entity → List Entity
  | [] => [e]
  | x :: xs =>
    if x.value.length ≤ e.value.length then e :: x :: xs
    else x :: insertDesc e xs

/-- Stable sort by descending value length. -/
def sortDesc : List Entity → List Entity
  | [] => []
  | x :: xs => insertDesc x (sortDesc xs)

/-- `ConstraintDecoder.to_placeholders`: substitute each entity's first
occurrence by its placeholder, longest values first; the mapping keeps
insertion order (Python `dict`; keys from `extract_entities` are distinct). -/
def toPlaceholders (text : Str) (entities : List Entity) : Str × List (Str × Str) :=
  (sortDesc entities).foldl
    (fun acc e =>
      (replaceFirst acc.1 e.value (placeholderOf e.key), acc.2 ++ [(e.key, e.value)]))
    (text, [])

/-- `ConstraintDecoder.detect_placeholder_leak` (`has_leak`, `leaked_placeholders`). -/
def detectPlaceholderLeak (text : Str) : Bool × List Str :=
  let ms := leakScan text
  (!ms.isEmpty, ms)

/-- `ConstraintDecoder.restore`: replace every placeholder occurrence by
its value, iterating the mapping in insertion order. -/
def restore (text : Str) (mapping : List (Str × Str)) : Str :=
  mapping.foldl (fun acc p => replaceAll acc (placeholderOf p.1) p.2) text

/-- `num.replace(',', '')`. -/
def stripCommas (v : Str) : Str := v.filter (fun c => !(c == ','))

/-- The `original_numbers` set of `check_new_numbers`: every NUMBER match
of the original plus its comma-stripped variant (membership only). -/
def origNumberSet (orig : Str) : List Str :=
  (numberValues orig).foldl (fun acc n => acc ++ [n, stripCommas n]) []

/-- `ConstraintDecoder.check_new_numbers`.  `allow` is the compiled
`normalize_whitelist` (each entry the truth of `pattern.match(num)`;
empty under the default configuration).  The Python `set` of rewritten
numbers is modelled with first-occurrence iteration order. -/
def checkNewNumbers (allow : List (Str → Bool)) (orig rewr : Str) : Bool × List Str :=
  let origSet := origNumberSet orig
  let rewrSet := dedupAgainst [] (numberValues rewr)
  let newNums := rewrSet.filter
    (fun n => !(origSet.contains n) && !(allow.any (fun p => p n)))
  (newNums.isEmpty, newNums)

/-! ### Test scenario of spec §8 -/

/-- The scenario original text of spec §8. -/
def scenarioText : Str :=
  ("2024年10月15日，某局投入1.2万元完成改造，同比增长8.5%。").data

/-- Encoding of the scenario text under the default configuration. -/
def scenarioEncoded : Str × List (Str × Str) :=
  toPlaceholders scenarioText (extractEntities [] scenarioText)

/-- A rewritten candidate that adds the number `20%` absent from the
scenario original. -/
def scenarioRewr : Str :=
  ("2024年10月15日，某局投入1.2万元完成改造，同比增长8.5%，新增20%。").data

/-- A plain date input: its digits `2024`, `1`, `1` are extracted as
numbers besides the date itself. -/
def dateOnlyText : Str := ("2024年1月1日").data

/-- A year-only date input: `2024` is extracted as a number whose only
occurrence lies inside the date span. -/
def yearText : Str := ("2024年").data

/-! ## `RewritePostProcessor` (src/core/postprocess.py) -/

/-- Python whitespace for `str.split()` / `str.strip()`: ASCII whitespace
plus the ideographic space (the only Unicode spaces occurring in the
texts in scope). -/
def pyIsSpace (c : Char) : Bool :=
  c == ' ' || c == '\t' || c == '\n' || c == '\r' ||
  c == Char.ofNat 11 || c == Char.ofNat 12 || c == Char.ofNat 0x3000

/-- Fuel-indexed worker for `pySplit` (fuel `s.length` suffices: every
step consumes at least one character). -/
def pySplitF : Nat → Str → List Str
  | 0, _ => []
  | _ + 1, [] => []
  | fuel + 1, c :: s =>
    if pyIsSpace c then pySplitF fuel s
    else ((c :: s).takeWhile (fun d => !(pyIsSpace d)))
      :: pySplitF fuel (s.dropWhile (fun d => !(pyIsSpace d)))

/-- `s.split()`: split on whitespace runs, dropping empty parts. -/
def pySplit (s : Str) : List Str := pySplitF s.length s

/-- `' '.join(lead.split())`. -/
def collapseWs (s : Str) : Str := List.intercalate ([' ']) (pySplit s)

/-- `s.strip()`. -/
def pyStrip (s : Str) : Str :=
  ((s.dropWhile pyIsSpace).reverse.dropWhile pyIsSpace).reverse

/-- `truncated.rfind(c)`: index of the last occurrence, `-1` if absent. -/
def rfindChar (c : Char) : Str → Int
  | [] => -1
  | x :: xs =>
    let r := rfindChar c xs
    if 0 ≤ r then r + 1
    else if x == c then 0 else -1

/-- `re.sub(c+, c, text)`: collapse each maximal run of `c` to one `c`. -/
def collapseRuns (c : Char) : Str → Str
  | [] => []
  | [x] => [x]
  | x :: y :: t =>
    if x == c && y == c then collapseRuns c (y :: t)
    else x :: collapseRuns c (y :: t)

/-- No two adjacent occurrences of `a` (the normal form of a
repeated-punctuation collapse). -/
def NoRun (a : Char) : Str → Prop
  | x :: y :: t => ¬(x = a ∧ y = a) ∧ NoRun a (y :: t)
  | _ => True

/-- The lookaround context class `[:/\d]` of `_normalize_punctuation`. -/
def isCtx (c : Char) : Bool := c == ':' || c == '/' || isDigit10 c

/-- Blocked context for an optional neighbouring character. -/
def ctxOpt : Option Char → Bool
  | none => false
  | some p => isCtx p

/-- One `re.sub(f'(?<![:/\d]){eng}(?![:/\d])', chn, text)` pass: an
occurrence of `eng` is replaced by `chn` unless the character before or
after it (in this pass's input, as with `re` lookaround) is a colon,
slash, or digit. -/
def replPassAux (eng chn : Char) : Option Char → Str → Str
  | _, [] => []
  | prev, x :: xs =>
    if x == eng && !(ctxOpt prev) && !(ctxOpt xs.head?) then
      chn :: replPassAux eng chn (some x) xs
    else x :: replPassAux eng chn (some x) xs

/-- A full substitution pass over a text. -/
def replPass (eng chn : Char) (s : Str) : Str := replPassAux eng chn none s

/-- The four repeated-punctuation collapses of `_normalize_punctuation`,
in source order (`。`, `，`, `！`, `？`). -/
def collapse4 (s : Str) : Str :=
  collapseRuns '？' (collapseRuns '！' (collapseRuns '，' (collapseRuns '。' s)))

/-- The five Latin-to-full-width conversion passes of
`_normalize_punctuation`, in dict order (`,` `;` `:` `!` `?`). -/
def repl5 (s : Str) : Str :=
  replPass '?' '？' (replPass '!' '！' (replPass ':' '：'
    (replPass ';' '；' (replPass ',' '，' s))))

/-- `RewritePostProcessor._normalize_punctuation`. -/
def normalizePunct (s : Str) : Str := repl5 (collapse4 s)

/-- `RewritePostProcessor._smart_truncate`.  The cut condition
`last_period > max_length * 0.7` is modelled over `ℚ`; at the only call
site (`max_length = 80`) the IEEE double product `80 * 0.7` is exactly
`56.0`, so the rational comparison coincides with the float one. -/
def smartTruncate (text : Str) (maxLength : Nat) : Str :=
  if text.length ≤ maxLength then text
  else
    let truncated := text.take maxLength
    let lastPeriod : Int := max (max (rfindChar '。' truncated)
      (rfindChar '！' truncated)) (rfindChar '？' truncated)
    if (maxLength : ℚ) * (7/10) < (lastPeriod : ℚ) then truncated.take (lastPeriod.toNat + 1)
    else truncated.take (maxLength - 3) ++ ("...").data

/-- The length-control branch of `_process_lead`: a short lead is only
logged, a lead over 80 code points is smart-truncated. -/
def leadLengthControl (l : Str) : Str :=
  if l.length < 40 then l
  else if 80 < l.length then smartTruncate l 80
  else l

/-- `RewritePostProcessor._process_lead`: whitespace collapsing, length
control, punctuation normalization, strip. -/
def processLead (lead : Str) : Str :=
  if lead.isEmpty then []
  else pyStrip (normalizePunct (leadLengthControl (collapseWs lead)))

/-! ## `XHFQualityChecker` (src/core/xhf_quality_checker.py) -/

/-- Character class `[.%万亿千百]` of the checker's number pattern. -/
def isQCClass (c : Char) : Bool :=
  c == '.' || c == '%' || c == '万' || c == '亿' || c == '千' || c == '百'

/-- The checker's number pattern `\d+[.%万亿千百]?\d*` at the current
position. -/
def matchQCNumber (s : Str) : Option Nat :=
  let n1 := countLeading isDigit10 s
  if n1 = 0 then none
  else
    match s.drop n1 with
    | c :: rest => if isQCClass c then some (n1 + 1 + countLeading isDigit10 rest) else some n1
    | [] => some n1

/-- The suffix alternation `(公司|企业|集团|局|厅|部|工厂|中心|专卖局)` of the
checker's organization pattern, alternatives in source order. -/
def qcOrgSuffix : Str → Option Str
  | a :: b :: r =>
    if a == '公' && b == '司' then some r
    else if a == '企' && b == '业' then some r
    else if a == '集' && b == '团' then some r
    else if a == '局' then some (b :: r)
    else if a == '厅' then some (b :: r)
    else if a == '部' then some (b :: r)
    else if a == '工' && b == '厂' then some r
    else if a == '中' && b == '心' then some r
    else if a == '专' && b == '卖' then
      match r with
      | c :: r' => if c == '局' then some r' else none
      | [] => none
    else none
  | [a] => if a == '局' || a == '厅' || a == '部' then some [] else none
  | [] => none

/-- Greedy `{2,10}` of the checker's organization pattern
`[一-龥]{2,10}(公司|…|专卖局)`: longest CJK prefix first. -/
def qcOrgTry (s : Str) : Nat → Option Nat
  | k + 2 =>
    match qcOrgSuffix (s.drop (k + 2)) with
    | some r => some (s.length - r.length)
    | none => qcOrgTry s (k + 1)
  | _ => none

/-- The checker's organization pattern at the current position. -/
def matchQCOrg (s : Str) : Option Nat :=
  qcOrgTry s (min 10 (countLeading isCJK s))

/-- `re.findall` of the checker's number pattern. -/
def qcNumbers (text : Str) : List Str := finditer matchQCNumber text

/-- `re.findall` of the checker's organization pattern (outer group). -/
def qcOrgs (text : Str) : List Str := finditer matchQCOrg text

/-- A rewritten article `{title, lead, body}`. -/
structure Rewritten where
  title : String
  lead : String
  body : String
deriving DecidableEq, Repr

/-- `f"{rewritten['title']} {rewritten['lead']} {rewritten['body']}"`. -/
def rewrittenText (r : Rewritten) : Str :=
  (r.title ++ " " ++ r.lead ++ " " ++ r.body).data

/-- `orig_numbers - rewritten_numbers` (Python sets, modelled with
first-occurrence iteration order; only emptiness and membership are
used). -/
def missingNumbers (orig : Str) (rw : Rewritten) : List Str :=
  (dedupAgainst [] (qcNumbers orig)).filter
    (fun n => !((qcNumbers (rewrittenText rw)).contains n))

/-- `rewritten_numbers - orig_numbers`. -/
def newNumbers (orig : Str) (rw : Rewritten) : List Str :=
  (dedupAgainst [] (qcNumbers (rewrittenText rw))).filter
    (fun n => !((qcNumbers orig).contains n))

/-- `orig_orgs - rewritten_orgs`. -/
def missingOrgsOf (orig : Str) (rw : Rewritten) : List Str :=
  (dedupAgainst [] (qcOrgs orig)).filter
    (fun n => !((qcOrgs (rewrittenText rw)).contains n))

/-- Result record of `check_factual_consistency` (score and match flags;
floats modelled exactly over `ℚ`). -/
structure ConsistencyResult where
  score : ℚ
  numbersMatch : Bool
  entitiesMatch : Bool
deriving DecidableEq, Repr

/-- `XHFQualityChecker.check_factual_consistency`: one `0.3` deduction if
there are missing or new numbers, one `0.2` deduction if there are
missing organizations, floored at `0`. -/
def checkFactualConsistency (orig : Str) (rw : Rewritten) : ConsistencyResult :=
  let mn := missingNumbers orig rw
  let nn := newNumbers orig rw
  let mo := missingOrgsOf orig rw
  let score1 : ℚ := if mn.isEmpty && nn.isEmpty then 1 else 1 - 3/10
  let score2 : ℚ := if mo.isEmpty then score1 else score1 - 1/5
  ConsistencyResult.mk (max 0 score2) (mn.isEmpty && nn.isEmpty) mo.isEmpty

/-! ## `XHFSampleRetriever` BM25 (src/core/xhf_sample_retriever.py)

Floats are modelled over `ℝ`, `math.log` as `Real.log`. -/

/-- A sample document `{title, lead, body}`. -/
structure Sample where
  title : String
  lead : String
  body : String
deriving DecidableEq, Repr

/-- `f"{sample['title']} {sample['lead']} {sample['body']}"`. -/
def sampleText (s : Sample) : Str := (s.title ++ " " ++ s.lead ++ " " ++ s.body).data

/-- `\.?[0-9]*` after the integer digits of the token pattern (a dot may
stand alone). -/
def dotDigits : Str → Nat
  | [] => 0
  | x :: t => if x == '.' then 1 + countLeading isDigit10 t else 0

/-- The tokenizer pattern `[一-龥]+|[0-9]+\.?[0-9]*|[a-zA-Z]+` at the
current position. -/
def matchXHFToken (s : Str) : Option Nat :=
  match s with
  | [] => none
  | c :: _ =>
    if isCJK c then some (countLeading isCJK s)
    else if isDigit10 c then
      some (countLeading isDigit10 s + dotDigits (s.drop (countLeading isDigit10 s)))
    else if isAsciiLetter c then some (countLeading isAsciiLetter s)
    else none

/-- `XHFSampleRetriever._tokenize`: regex findall, keeping tokens of
length at least 2. -/
def tokenizeXHF (s : Str) : List Str :=
  (finditer matchXHFToken s).filter (fun t => 2 ≤ t.length)

/-- Token lists of all corpus documents. -/
def xhfDocTokens (corpus : List Sample) : List (List Str) :=
  corpus.map (fun d => tokenizeXHF (sampleText d))

/-- `avg_doc_length` (`1` for an empty corpus, as in the source). -/
noncomputable def xhfAvgDocLength (corpus : List Sample) : ℝ :=
  if corpus = [] then 1
  else (((xhfDocTokens corpus).map List.length).sum : ℝ) / (corpus.length : ℝ)

/-- Document frequency of a token. -/
def xhfDf (corpus : List Sample) (t : Str) : Nat :=
  ((xhfDocTokens corpus).filter (fun toks => toks.contains t)).length

/-- `self.idf[word] = log((doc_count - df + 0.5) / (df + 0.5) + 1)`. -/
noncomputable def xhfIdf (n df : Nat) : ℝ :=
  Real.log (((n : ℝ) - (df : ℝ) + 0.5) / ((df : ℝ) + 0.5) + 1)

/-- The length normalization `k1 * (1 - b + b * (doc_len / avg_doc_length))`
with `k1 = 1.5`, `b = 0.75`. -/
noncomputable def xhfNorm (corpus : List Sample) (dl : Nat) : ℝ :=
  1.5 * (1 - 0.75 + 0.75 * ((dl : ℝ) / xhfAvgDocLength corpus))

/-- One term's contribution to `_bm25_score`: tokens absent from the
index (`df = 0`) and tokens with `tf = 0` contribute nothing. -/
noncomputable def xhfTermScore (corpus : List Sample) (dtoks : List Str) (t : Str) : ℝ :=
  if xhfDf corpus t = 0 then 0
  else if dtoks.count t = 0 then 0
  else xhfIdf corpus.length (xhfDf corpus t)
    * ((dtoks.count t : ℝ) * (1.5 + 1))
    / ((dtoks.count t : ℝ) + xhfNorm corpus dtoks.length)

/-- `XHFSampleRetriever._bm25_score` for a document of the corpus
(documents of token length `0` score `0`). -/
noncomputable def xhfScore (corpus : List Sample) (query : List Str) (doc : Sample) : ℝ :=
  if (tokenizeXHF (sampleText doc)).length = 0 then 0
  else (query.map (xhfTermScore corpus (tokenizeXHF (sampleText doc)))).sum

/-! ## `IntelligentRetriever` BM25 (src/knowledge_base/intelligent_retriever.py) -/

/-- An article record `{title, lead, body}`. -/
structure Article where
  title : String
  lead : String
  body : String
deriving DecidableEq, Repr

/-- `f"{article.get('title','')} {article.get('lead','')} {article.get('body','')}"`. -/
def articleText (a : Article) : Str := (a.title ++ " " ++ a.lead ++ " " ++ a.body).data

/-- Python `\w` over the scripts occurring in this repository's texts:
ASCII alphanumerics, underscore, CJK ideographs. -/
def pyWordChar (c : Char) : Bool :=
  isDigit10 c || isAsciiLetter c || c == '_' || isCJK c

/-- The `common_words` list of `IntelligentRetriever._tokenize`. -/
def irCommonWords : List Str :=
  [("烟草").data, ("卷烟").data, ("烟叶").data, ("专卖").data,
   ("营销").data, ("销售").data, ("监管").data, ("生产").data,
   ("会议").data, ("召开").data, ("举办").data, ("活动").data,
   ("工作").data, ("发展").data, ("建设").data, ("管理").data,
   ("同比").data, ("增长").data, ("下降").data, ("提升").data,
   ("优化").data, ("推进").data, ("落实").data, ("部署").data]

/-- `IntelligentRetriever._tokenize`: punctuation is removed and each
remaining word character becomes a token; each `common_words` entry
contained in the cleaned text is appended once, in list order. -/
def irTokenize (s : Str) : List Str :=
  (s.filter pyWordChar).map (fun c => [c])
    ++ irCommonWords.filter (fun w => isSubstr w (s.filter pyWordChar))

/-- Token lists of all indexed articles. -/
def irDocTokens (arts : List Article) : List (List Str) :=
  arts.map (fun a => irTokenize (articleText a))

/-- Document frequency (`sum(1 for tokens in doc_tokens if token in tokens)`). -/
def irDf (arts : List Article) (t : Str) : Nat :=
  ((irDocTokens arts).filter (fun toks => toks.contains t)).length

/-- `self.idf_scores[token] = log((doc_count - doc_freq + 0.5) / (doc_freq + 0.5))` —
no `+ 1` inside the logarithm. -/
noncomputable def irIdf (n df : Nat) : ℝ :=
  Real.log (((n : ℝ) - (df : ℝ) + 0.5) / ((df : ℝ) + 0.5))

/-- `IntelligentRetriever._calculate_bm25_score` (`k1 = 1.2`, `b = 0.75`;
an index miss returns `0`; a term outside the vocabulary — `df = 0` — is
skipped; `avg_doc_length` is the mean stored document length). -/
noncomputable def irScore (arts : List Article) (query : List Str) (i : Nat) : ℝ :=
  if i < arts.length then
    (query.map (fun t =>
      if irDf arts t = 0 then 0
      else irIdf arts.length (irDf arts t)
        * (((irTokenize (articleText (arts.getD i (Article.mk "" "" "")))).count t : ℝ) * (1.2 + 1))
        / (((irTokenize (articleText (arts.getD i (Article.mk "" "" "")))).count t : ℝ)
          + 1.2 * (1 - 0.75 + 0.75
            * (((irTokenize (articleText (arts.getD i (Article.mk "" "" "")))).length : ℝ)
              / ((((irDocTokens arts).map List.length).sum : ℝ) / (arts.length : ℝ))))))).sum
  else 0

/-- Concrete two-article corpus for the divergence of the two BM25
implementations. -/
def irArts : List Article :=
  [Article.mk "甲甲乙" "" "", Article.mk "甲丙丁" "" ""]

/-- Concrete query tokens `甲`, `乙`. -/
def irQuery : List Str := [("甲").data, ("乙").data]

end Tobacco

namespace Tobacco

/-! ### Supporting lemmas about the string primitives -/

theorem startsWith_append (p r : Str) : startsWith (p ++ r) p = true := by
  induction p with
  | nil => cases r <;> simp [startsWith]
  | cons c p ih => simpa [startsWith] using ih

theorem startsWith_decomp {s p : Str} (h : startsWith s p = true) : ∃ r, s = p ++ r := by
  induction p generalizing s with
  | nil => exact ⟨s, rfl⟩
  | cons c p ih =>
    cases s with
    | nil => simp [startsWith] at h
    | cons a s' =>
      simp only [startsWith, Bool.and_eq_true, beq_iff_eq] at h
      obtain ⟨rfl, h2⟩ := h
      obtain ⟨r, rfl⟩ := ih h2
      exact ⟨r, rfl⟩

theorem findSub_decomp {s pat : Str} {i : Nat} (h : findSub s pat = some i) :
    ∃ b, s = s.take i ++ pat ++ b := by
  induction s generalizing i with
  | nil =>
    simp only [findSub] at h
    split at h
    · rename_i hp
      cases h
      exact ⟨[], by simp [hp]⟩
    · cases h
  | cons c s' ih =>
    simp only [findSub] at h
    split at h
    · rename_i hsw
      cases h
      obtain ⟨r, hr⟩ := startsWith_decomp hsw
      exact ⟨r, by simpa using hr⟩
    · rename_i hsw
      cases hj : findSub s' pat with
      | none => rw [hj] at h; cases h
      | some j =>
        rw [hj] at h
        have hji : j + 1 = i := by simpa using h
        subst hji
        obtain ⟨b, hb⟩ := ih hj
        refine ⟨b, ?_⟩
        calc c :: s' = c :: (s'.take j ++ pat ++ b) := by rw [← hb]
        _ = (c :: s').take (j + 1) ++ pat ++ b := by simp

theorem isSubstr_iff {pat s : Str} : isSubstr pat s = true ↔ ∃ a b, s = a ++ pat ++ b := by
  constructor
  · intro h
    obtain ⟨i, hi⟩ := Option.isSome_iff_exists.mp h
    obtain ⟨b, hb⟩ := findSub_decomp hi
    exact ⟨s.take i, b, hb⟩
  · rintro ⟨a, b, rfl⟩
    unfold isSubstr
    induction a with
    | nil =>
      rw [List.nil_append]
      cases hpb : pat ++ b with
      | nil =>
        obtain ⟨hp, hb⟩ := List.append_eq_nil.mp hpb
        subst hp
        subst hb
        simp [findSub]
      | cons c r =>
        have hsw : startsWith (pat ++ b) pat = true := startsWith_append pat b
        rw [hpb] at hsw
        simp [findSub, hsw]
    | cons c a' ih =>
      rw [List.cons_append, List.cons_append, findSub]
      split
      · simp
      · simpa using ih

theorem isSubstr_middle (p a b : Str) : isSubstr p (a ++ p ++ b) = true :=
  isSubstr_iff.mpr ⟨a, b, rfl⟩

theorem replaceFirst_decomp {s old : Str} (new : Str) (hne : old ≠ [])
    (h : isSubstr old s = true) :
    ∃ a b, replaceFirst s old new = a ++ new ++ b := by
  obtain ⟨i, hi⟩ := Option.isSome_iff_exists.mp h
  refine ⟨s.take i, s.drop (i + old.length), ?_⟩
  rw [replaceFirst, if_neg hne, hi]

/-! ### Supporting lemmas about extraction and sorting -/

theorem mem_withKeys {t : String} {vs : List Str} {off : Nat} {e : Entity}
    (h : e ∈ withKeys t off vs) : e.etype = t ∧ e.value ∈ vs := by
  induction vs generalizing off with
  | nil => simp [withKeys] at h
  | cons v vs ih =>
    simp only [withKeys, List.mem_cons] at h
    rcases h with rfl | h
    · exact ⟨rfl, by simp⟩
    · obtain ⟨h1, h2⟩ := ih h
      exact ⟨h1, by simp [h2]⟩

theorem mem_insertDesc {e x : Entity} {l : List Entity} (h : x ∈ insertDesc e l) :
    x = e ∨ x ∈ l := by
  induction l with
  | nil => simpa [insertDesc] using h
  | cons y ys ih =>
    rw [insertDesc] at h
    split at h
    · rcases List.mem_cons.mp h with rfl | h2
      · exact Or.inl rfl
      · exact Or.inr h2
    · rcases List.mem_cons.mp h with rfl | h2
      · exact Or.inr (List.mem_cons_self _ _)
      · rcases ih h2 with h3 | h3
        · exact Or.inl h3
        · exact Or.inr (List.mem_cons_of_mem _ h3)

theorem pairwise_insertDesc {e : Entity} {l : List Entity}
    (h : l.Pairwise (fun a b => b.value.length ≤ a.value.length)) :
    (insertDesc e l).Pairwise (fun a b => b.value.length ≤ a.value.length) := by
  induction l with
  | nil => simp [insertDesc]
  | cons x xs ih =>
    rw [List.pairwise_cons] at h
    obtain ⟨hx, hxs⟩ := h
    rw [insertDesc]
    split
    · rename_i hc
      refine List.pairwise_cons.mpr ⟨?_, List.pairwise_cons.mpr ⟨hx, hxs⟩⟩
      intro y hy
      rcases List.mem_cons.mp hy with rfl | hy'
      · exact hc
      · exact le_trans (hx y hy') hc
    · rename_i hc
      refine List.pairwise_cons.mpr ⟨?_, ih hxs⟩
      intro y hy
      rcases mem_insertDesc hy with rfl | hy'
      · omega
      · exact hx y hy'

theorem pairwise_sortDesc (l : List Entity) :
    (sortDesc l).Pairwise (fun a b => b.value.length ≤ a.value.length) := by
  induction l with
  | nil => simp [sortDesc]
  | cons x xs ih => exact pairwise_insertDesc ih

/-! ### Claim C1 -/

/-- C1 (counterexample): the round-trip claim fails on the concrete text
`2024年1月1日`: the extracted number `1` is substituted inside the
already-inserted date placeholder, so restore does not reproduce the
text and the leak detector reports a leak on the restored text. -/
theorem c1_roundtrip_fails :
    restore (toPlaceholders dateOnlyText (extractEntities [] dateOnlyText)).1
        (toPlaceholders dateOnlyText (extractEntities [] dateOnlyText)).2 ≠ dateOnlyText
    ∧ (detectPlaceholderLeak
        (restore (toPlaceholders dateOnlyText (extractEntities [] dateOnlyText)).1
          (toPlaceholders dateOnlyText (extractEntities [] dateOnlyText)).2)).1 = true := by
  decide

/-- C1 (amended): the encode/restore round-trip without a generation
step reproduces the input exactly with no placeholder leak for inputs
whose substitution steps do not overwrite characters of an inserted
placeholder — in particular for the spec §8 scenario text. -/
theorem c1_scenario_roundtrip :
    restore scenarioEncoded.1 scenarioEncoded.2 = scenarioText ∧
    (detectPlaceholderLeak (restore scenarioEncoded.1 scenarioEncoded.2)).1 = false := by
  decide

/-! ### Claim C2 -/

/-- C2 (counterexample): on the scenario text, extraction does not yield
only the number spans `1.2万元` and `8.5%` — the digit groups of the
date are re-captured as numbers as well, because the exclusion compares
whole date strings, not spans. -/
theorem c2_scenario_numbers_differ :
    ((extractEntities [] scenarioText).filter
        (fun e => e.etype == "NUM")).map Entity.value =
      [("2024").data, ("10").data, ("15").data, ("1.2万元").data, ("8.5%").data]
    ∧ ((extractEntities [] scenarioText).filter
        (fun e => e.etype == "NUM")).map Entity.value ≠
      [("1.2万元").data, ("8.5%").data] := by
  decide

/-- C2 (amended): no extracted number value equals an extracted date
value (the extraction filters numbers by the set of full date strings),
but numeric sub-spans of a date are still captured as numbers; on the
scenario text extraction yields one date span `2024年10月15日` and the
number spans `2024`, `10`, `15`, `1.2万元`, `8.5%`. -/
theorem c2_date_priority :
    (∀ (wl : List Str) (text : Str) (e : Entity),
        e ∈ extractEntities wl text → e.etype = "NUM" → ¬ e.value ∈ dateValues text)
    ∧ ((extractEntities [] scenarioText).filter
        (fun e => e.etype == "DATE")).map Entity.value = [("2024年10月15日").data]
    ∧ ((extractEntities [] scenarioText).filter
        (fun e => e.etype == "NUM")).map Entity.value =
      [("2024").data, ("10").data, ("15").data, ("1.2万元").data, ("8.5%").data] := by
  refine ⟨?_, by decide, by decide⟩
  intro wl text e he hty hmem
  simp only [extractEntities, List.mem_append] at he
  rcases he with ((hd | hn) | hw) | hr
  · have h1 := (mem_withKeys hd).1
    rw [hty] at h1
    exact absurd h1 (by decide)
  · have h2 := (mem_withKeys hn).2
    have h3 := List.mem_filter.mp h2
    have h4 : (dateValues text).contains e.value = true := List.elem_iff.mpr hmem
    have h5 : (dateValues text).contains e.value = false := by simpa using h3.2
    exact absurd (h4.symm.trans h5) (by decide)
  · have h1 := (mem_withKeys hw).1
    rw [hty] at h1
    exact absurd h1 (by decide)
  · have h1 := (mem_withKeys hr).1
    rw [hty] at h1
    exact absurd h1 (by decide)

/-- C2 witness: the amended priority statement applied to the concrete
text `共3人` and its extracted number `3人`. -/
theorem c2_date_priority_witness :
    ¬ (Entity.mk "NUM" (("3人").data) (("NUM_1").data)).value ∈ dateValues (("共3人").data) :=
  c2_date_priority.1 [] (("共3人").data)
    (Entity.mk "NUM" (("3人").data) (("NUM_1").data)) (by decide) (by decide)

/-! ### Claim C3 -/

/-- C3 (counterexample): on `2024年1月1日` the entity `1` (a substring of
the date value) is substituted inside the date's already-inserted
placeholder: the date's placeholder token does not appear intact in the
encoded text and the date is not restored. -/
theorem c3_substring_corruption :
    (Entity.mk "NUM" (("1").data) (("NUM_2").data)) ∈ extractEntities [] dateOnlyText
    ∧ (Entity.mk "DATE" dateOnlyText (("DATE_1").data)) ∈ extractEntities [] dateOnlyText
    ∧ isSubstr (("1").data) dateOnlyText = true
    ∧ isSubstr (placeholderOf (("DATE_1").data))
        (toPlaceholders dateOnlyText (extractEntities [] dateOnlyText)).1 = false
    ∧ restore (toPlaceholders dateOnlyText (extractEntities [] dateOnlyText)).1
        (toPlaceholders dateOnlyText (extractEntities [] dateOnlyText)).2 ≠ dateOnlyText := by
  decide

/-- C3 (amended): `to_placeholders` does substitute entities in
descending order of value length (so a short value is never substituted
inside a longer value's not-yet-replaced occurrence), and on the
scenario text the placeholder of the date containing `10` stays intact
and maps back under restore; a later shorter substitution can however
corrupt an already-inserted placeholder. -/
theorem c3_descending_order :
    (∀ es : List Entity,
        (sortDesc es).Pairwise (fun a b => b.value.length ≤ a.value.length))
    ∧ isSubstr (placeholderOf (("DATE_1").data)) scenarioEncoded.1 = true
    ∧ restore scenarioEncoded.1 scenarioEncoded.2 = scenarioText :=
  ⟨pairwise_sortDesc, by decide, by decide⟩

/-- C3 witness: the descending-order statement applied to the concrete
entity list extracted from the scenario text. -/
theorem c3_descending_order_witness :
    (sortDesc (extractEntities [] scenarioText)).Pairwise
      (fun a b => b.value.length ≤ a.value.length) :=
  c3_descending_order.1 (extractEntities [] scenarioText)

/-! ### Claim C4 -/

/-- C4 (counterexample): on `2024年`, the mapping returned by
`to_placeholders` contains the key `NUM_1` (value `2024`), yet the
placeholder token of `NUM_1` does not appear in the placeholder text:
the value's only occurrence was consumed by the earlier, longer date
substitution. -/
theorem c4_missing_placeholder :
    ((("NUM_1").data, ("2024").data) ∈
      (toPlaceholders yearText (extractEntities [] yearText)).2)
    ∧ isSubstr (placeholderOf (("NUM_1").data))
        (toPlaceholders yearText (extractEntities [] yearText)).1 = false := by
  decide

/-- C4 (amended): a key's placeholder token appears verbatim in the
returned placeholder text when the key's value still occurs at its
substitution step; in particular for a single extracted entity whose
value occurs in the text.  With several entities a key's placeholder
may be absent (value consumed by an earlier, longer substitution). -/
theorem c4_single_entity_placeholder :
    ∀ (text v k : Str) (ty : String), isSubstr v text = true → v ≠ [] →
      (k, v) ∈ (toPlaceholders text [Entity.mk ty v k]).2 ∧
      isSubstr (placeholderOf k) (toPlaceholders text [Entity.mk ty v k]).1 = true := by
  intro text v k ty hocc hne
  constructor
  · simp [toPlaceholders, sortDesc, insertDesc]
  · have h1 : (toPlaceholders text [Entity.mk ty v k]).1
      = replaceFirst text v (placeholderOf k) := rfl
    rw [h1]
    obtain ⟨a, b, heq⟩ := replaceFirst_decomp (placeholderOf k) hne hocc
    rw [heq]
    exact isSubstr_middle _ _ _

/-- C4 witness: the single-entity statement applied to the text `abc`
and entity value `b` with key `K`. -/
theorem c4_single_entity_placeholder_witness :
    ((("K").data, ("b").data) ∈
      (toPlaceholders (("abc").data) [Entity.mk "NUM" (("b").data) (("K").data)]).2) ∧
    isSubstr (placeholderOf (("K").data))
      (toPlaceholders (("abc").data) [Entity.mk "NUM" (("b").data) (("K").data)]).1 = true :=
  c4_single_entity_placeholder (("abc").data) (("b").data) (("K").data) "NUM"
    (by decide) (by decide)

/-! ### Supporting lemmas for claim C5 -/

theorem countLeading_all (p : Char → Bool) (s : Str) :
    ∀ c ∈ s.take (countLeading p s), p c = true := by
  induction s with
  | nil => simp
  | cons a s ih =>
    rw [countLeading]
    split
    · rename_i hp
      intro c hc
      rw [List.take_succ_cons] at hc
      rcases List.mem_cons.mp hc with rfl | hc'
      · exact hp
      · exact ih c hc'
    · simp

theorem wyqb_unit1 {c : Char} (h : isWanYiQianBai c = true) : isUnit1 c = true := by
  simp only [isWanYiQianBai, Bool.or_eq_true, beq_iff_eq] at h
  simp only [isUnit1, Bool.or_eq_true, beq_iff_eq]
  tauto

theorem fracLen_chars (r : Str) :
    ∀ c ∈ r.take (fracLen r), (isDigit10 c || c == '.') = true := by
  cases r with
  | nil => simp
  | cons x t =>
    by_cases hx : (x == '.') = true
    · have hfe : fracLen (x :: t)
          = if countLeading isDigit10 t = 0 then 0 else countLeading isDigit10 t + 1 := by
        rw [fracLen, if_pos hx]
      rw [hfe]
      split
      · simp
      · intro c hc
        rw [List.take_succ_cons] at hc
        rcases List.mem_cons.mp hc with rfl | hc'
        · simp [hx]
        · rw [countLeading_all isDigit10 t c hc']
          simp
    · have hfe : fracLen (x :: t) = 0 := by
        rw [fracLen, if_neg hx]
      rw [hfe]
      simp

theorem unitOpt_spec (r : Str) :
    ∃ u, u ≤ r.length ∧ unitOpt r = r.drop u ∧
      ∀ c ∈ r.take u, (c == '元' || c == '%' || isUnit1 c) = true := by
  cases r with
  | nil => exact ⟨0, by simp, rfl, by simp⟩
  | cons a t =>
    cases t with
    | nil =>
      rw [unitOpt]
      split
      · rename_i ha
        refine ⟨1, by simp, rfl, ?_⟩
        intro c hc
        have hca : c = a := by simpa using hc
        subst hca
        simpa using ha
      · exact ⟨0, by simp, rfl, by simp⟩
    | cons b r' =>
      rw [unitOpt]
      split
      · rename_i h1
        obtain ⟨ha, hb⟩ : isWanYiQianBai a = true ∧ (b == '元') = true := by
          simpa using h1
        refine ⟨2, by simp, rfl, ?_⟩
        intro c hc
        simp only [List.take_succ_cons, List.take_zero] at hc
        rcases List.mem_cons.mp hc with rfl | hc'
        · simp [wyqb_unit1 ha]
        · rcases List.mem_cons.mp hc' with rfl | hc''
          · simp [hb]
          · simp at hc''
      · split
        · rename_i h2
          refine ⟨1, by simp, rfl, ?_⟩
          intro c hc
          simp only [List.take_succ_cons, List.take_zero] at hc
          rcases List.mem_cons.mp hc with rfl | hc'
          · simpa using h2
          · simp at hc'
        · exact ⟨0, by simp, rfl, by simp⟩

theorem matchNumber_no_comma {s : Str} {n : Nat} (h : matchNumber s = some n) :
    ∀ c ∈ s.take n, ¬ c = ',' := by
  obtain ⟨u, hule, hdrop, hchars⟩ := unitOpt_spec
    (s.drop (countLeading isDigit10 s + fracLen (s.drop (countLeading isDigit10 s))))
  simp only [matchNumber] at h
  split at h
  · cases h
  · rename_i hn1
    have hn : n = countLeading isDigit10 s
        + fracLen (s.drop (countLeading isDigit10 s))
        + ((s.drop (countLeading isDigit10 s + fracLen (s.drop (countLeading isDigit10 s)))).length
            - (unitOpt (s.drop (countLeading isDigit10 s
                + fracLen (s.drop (countLeading isDigit10 s))))).length) := by
      exact (Option.some.inj h).symm
    have hlen : (unitOpt (s.drop (countLeading isDigit10 s
          + fracLen (s.drop (countLeading isDigit10 s))))).length
        = (s.drop (countLeading isDigit10 s
            + fracLen (s.drop (countLeading isDigit10 s)))).length - u := by
      rw [hdrop, List.length_drop]
    rw [hlen] at hn
    have hn' : n = countLeading isDigit10 s
        + fracLen (s.drop (countLeading isDigit10 s)) + u := by omega
    intro c hc hcomma
    subst hcomma
    rw [hn', List.take_add, List.take_add] at hc
    rcases List.mem_append.mp hc with hc1 | hc3
    · rcases List.mem_append.mp hc1 with hc1a | hc1b
      · exact absurd (countLeading_all isDigit10 s _ hc1a) (by decide)
      · exact absurd (fracLen_chars _ _ hc1b) (by decide)
    · exact absurd (hchars _ hc3) (by decide)

theorem mem_finditerF {mf : Str → Option Nat} :
    ∀ (fuel : Nat) (s m : Str), m ∈ finditerF mf fuel s →
      ∃ s' n, mf s' = some n ∧ m = s'.take n := by
  intro fuel
  induction fuel with
  | zero => intro s m h; simp [finditerF] at h
  | succ fuel ih =>
    intro s m h
    cases s with
    | nil => simp [finditerF] at h
    | cons c rest =>
      cases hm : mf (c :: rest) with
      | none =>
        rw [finditerF, hm] at h
        exact ih _ _ h
      | some n =>
        rw [finditerF, hm] at h
        rcases List.mem_cons.mp h with rfl | h'
        · exact ⟨c :: rest, n, hm, rfl⟩
        · exact ih _ _ h'

theorem numberValues_no_comma {s m : Str} (h : m ∈ numberValues s) :
    ∀ c ∈ m, ¬ c = ',' := by
  unfold numberValues finditer at h
  obtain ⟨s', n, hm, rfl⟩ := mem_finditerF _ _ _ h
  exact matchNumber_no_comma hm

theorem stripCommas_id {v : Str} (h : ∀ c ∈ v, ¬ c = ',') : stripCommas v = v := by
  unfold stripCommas
  exact List.filter_eq_self.mpr (fun a ha => by simp [h a ha])

theorem mem_origFold (l : List Str) (acc : List Str) (x : Str) :
    x ∈ l.foldl (fun a n => a ++ [n, stripCommas n]) acc ↔
      x ∈ acc ∨ ∃ m ∈ l, x = m ∨ x = stripCommas m := by
  induction l generalizing acc with
  | nil => simp
  | cons v vs ih =>
    rw [List.foldl_cons, ih]
    simp only [List.mem_append, List.mem_cons, List.not_mem_nil, or_false]
    constructor
    · rintro ((h | (rfl | rfl)) | ⟨m, hm, hx⟩)
      · exact Or.inl h
      · exact Or.inr ⟨x, Or.inl rfl, Or.inl rfl⟩
      · exact Or.inr ⟨v, Or.inl rfl, Or.inr rfl⟩
      · exact Or.inr ⟨m, Or.inr hm, hx⟩
    · rintro (h | ⟨m, (rfl | hm), hx⟩)
      · exact Or.inl (Or.inl h)
      · rcases hx with rfl | rfl
        · exact Or.inl (Or.inr (Or.inl rfl))
        · exact Or.inl (Or.inr (Or.inr rfl))
      · exact Or.inr ⟨m, hm, hx⟩

theorem mem_origNumberSet {orig x : Str} :
    x ∈ origNumberSet orig ↔ x ∈ numberValues orig := by
  unfold origNumberSet
  rw [mem_origFold]
  simp only [List.not_mem_nil, false_or]
  constructor
  · rintro ⟨m, hm, rfl | rfl⟩
    · exact hm
    · rw [stripCommas_id (numberValues_no_comma hm)]
      exact hm
  · intro hx
    exact ⟨x, hx, Or.inl rfl⟩

theorem mem_dedupAgainst : ∀ (seen l : List Str) (x : Str),
    x ∈ dedupAgainst seen l ↔ x ∈ l ∧ ¬ x ∈ seen := by
  intro seen l
  induction l generalizing seen with
  | nil => simp [dedupAgainst]
  | cons v vs ih =>
    intro x
    rw [dedupAgainst]
    split
    · rename_i hc
      have hv : v ∈ seen := List.elem_iff.mp hc
      rw [ih]
      constructor
      · rintro ⟨h1, h2⟩
        exact ⟨List.mem_cons_of_mem _ h1, h2⟩
      · rintro ⟨h1, h2⟩
        rcases List.mem_cons.mp h1 with rfl | h1'
        · exact absurd hv h2
        · exact ⟨h1', h2⟩
    · rename_i hc
      have hv : ¬ v ∈ seen := fun hmem => hc (List.elem_iff.mpr hmem)
      rw [List.mem_cons, ih]
      constructor
      · rintro (rfl | ⟨h1, h2⟩)
        · exact ⟨List.mem_cons_self _ _, hv⟩
        · exact ⟨List.mem_cons_of_mem _ h1,
            fun hs => h2 (List.mem_cons_of_mem _ hs)⟩
      · rintro ⟨h1, h2⟩
        by_cases hxv : x = v
        · exact Or.inl hxv
        · rcases List.mem_cons.mp h1 with rfl | h1'
          · exact Or.inl rfl
          · right
            refine ⟨h1', fun hx => ?_⟩
            rcases List.mem_cons.mp hx with h | h
            · exact hxv h
            · exact h2 h

/-! ### Claim C5 -/

/-- C5 (confirmed): `check_new_numbers` returns `is_valid = true` iff
every number-shaped span of the rewritten text is among the original's
number spans or matches a configured format-normalization allow-pattern;
and on the scenario original with a candidate adding `20%` it returns
`(False, ["20%"])`. -/
theorem c5_check_new_numbers :
    (∀ (allow : List (Str → Bool)) (orig rewr : Str),
        (checkNewNumbers allow orig rewr).1 = true ↔
          ∀ n ∈ numberValues rewr,
            n ∈ numberValues orig ∨ allow.any (fun p => p n) = true)
    ∧ checkNewNumbers [] scenarioText scenarioRewr = (false, [("20%").data]) := by
  constructor
  · intro allow orig rewr
    have h1 : (checkNewNumbers allow orig rewr).1
        = ((dedupAgainst [] (numberValues rewr)).filter
            (fun n => !((origNumberSet orig).contains n)
              && !(allow.any (fun p => p n)))).isEmpty := rfl
    rw [h1, List.isEmpty_iff, List.filter_eq_nil_iff]
    constructor
    · intro h n hn
      have hd : n ∈ dedupAgainst [] (numberValues rewr) :=
        (mem_dedupAgainst [] _ n).mpr ⟨hn, by simp⟩
      cases hcb : (origNumberSet orig).contains n with
      | true => exact Or.inl (mem_origNumberSet.mp (List.elem_iff.mp hcb))
      | false =>
        cases hab : allow.any (fun p => p n) with
        | true => exact Or.inr rfl
        | false =>
          exact absurd
            (show (!((origNumberSet orig).contains n)
                && !(allow.any fun p => p n)) = true by rw [hcb, hab]; rfl)
            (h n hd)
    · intro h n hn
      have hn' := ((mem_dedupAgainst [] _ n).mp hn).1
      show ¬ ((!((origNumberSet orig).contains n) && !(allow.any fun p => p n)) = true)
      intro heq
      rcases h n hn' with hmem | hany
      · have hc : (origNumberSet orig).contains n = true :=
          List.elem_iff.mpr (mem_origNumberSet.mpr hmem)
        rw [hc] at heq
        simp at heq
      · rw [hany] at heq
        simp at heq
  · decide

/-- C5 witness: the equivalence applied with the default (empty)
allow-pattern list to a pair of identical texts, whose numbers trivially
all occur in the original. -/
theorem c5_check_new_numbers_witness :
    (checkNewNumbers [] (("共3人增长5%").data) (("共3人增长5%").data)).1 = true :=
  (c5_check_new_numbers.1 [] (("共3人增长5%").data) (("共3人增长5%").data)).mpr
    (by decide)

/-! ### Supporting lemmas for claims C9 and C10 -/

theorem collapseRuns_head (a y : Char) (t : Str) :
    ∃ t', collapseRuns a (y :: t) = y :: t' := by
  induction t generalizing y with
  | nil => exact ⟨[], rfl⟩
  | cons z t' ih =>
    rw [collapseRuns]
    split
    · rename_i h
      obtain ⟨hy, hz⟩ : y = a ∧ z = a := by simpa using h
      obtain ⟨t'', ht⟩ := ih z
      exact ⟨t'', by rw [ht, hy, ← hz]⟩
    · exact ⟨collapseRuns a (z :: t'), rfl⟩

theorem noRun_collapseRuns_self (a : Char) (s : Str) :
    NoRun a (collapseRuns a s) := by
  induction s with
  | nil => trivial
  | cons x xs ih =>
    cases xs with
    | nil => trivial
    | cons y t =>
      rw [collapseRuns]
      split
      · exact ih
      · rename_i h
        obtain ⟨t', ht⟩ := collapseRuns_head a y t
        rw [ht]
        refine ⟨fun hxy => ?_, ht ▸ ih⟩
        obtain ⟨rfl, rfl⟩ := hxy
        simp at h

theorem noRun_collapseRuns_other {a b : Char} (s : Str)
    (hs : NoRun a s) : NoRun a (collapseRuns b s) := by
  induction s with
  | nil => trivial
  | cons x xs ih =>
    cases xs with
    | nil => trivial
    | cons y t =>
      obtain ⟨h1, h2⟩ := hs
      rw [collapseRuns]
      split
      · exact ih h2
      · obtain ⟨t', ht⟩ := collapseRuns_head b y t
        rw [ht]
        exact ⟨h1, ht ▸ ih h2⟩

theorem collapseRuns_id_of_noRun {a : Char} {s : Str} (hs : NoRun a s) :
    collapseRuns a s = s := by
  induction s with
  | nil => rfl
  | cons x xs ih =>
    cases xs with
    | nil => rfl
    | cons y t =>
      obtain ⟨h1, h2⟩ := hs
      rw [collapseRuns]
      split
      · rename_i h
        exact absurd (by simpa using h) h1
      · rw [ih h2]

theorem mem_collapseRuns {a : Char} {s : Str} {c : Char}
    (h : c ∈ collapseRuns a s) : c ∈ s := by
  induction s with
  | nil => simp [collapseRuns] at h
  | cons x xs ih =>
    cases xs with
    | nil => simpa [collapseRuns] using h
    | cons y t =>
      rw [collapseRuns] at h
      split at h
      · exact List.mem_cons_of_mem _ (ih h)
      · rcases List.mem_cons.mp h with rfl | h'
        · exact List.mem_cons_self _ _
        · exact List.mem_cons_of_mem _ (ih h')

theorem replPassAux_id {eng chn : Char} {s : Str}
    (h : ∀ c ∈ s, ¬ c = eng) : ∀ prev, replPassAux eng chn prev s = s := by
  induction s with
  | nil => intro prev; rfl
  | cons x xs ih =>
    intro prev
    have hx : (x == eng) = false := by
      simpa using h x (List.mem_cons_self x xs)
    rw [replPassAux, if_neg (by simp [hx])]
    rw [ih (fun c hc => h c (List.mem_cons_of_mem _ hc)) (some x)]

theorem repl5_id {s : Str}
    (h : ∀ c ∈ s, ¬ (c = ',' ∨ c = ';' ∨ c = ':' ∨ c = '!' ∨ c = '?')) :
    repl5 s = s := by
  unfold repl5 replPass
  rw [replPassAux_id (fun c hc => fun he => h c hc (Or.inl he)) none]
  rw [replPassAux_id (fun c hc => fun he => h c hc (Or.inr (Or.inl he))) none]
  rw [replPassAux_id (fun c hc => fun he => h c hc (Or.inr (Or.inr (Or.inl he)))) none]
  rw [replPassAux_id (fun c hc => fun he => h c hc (Or.inr (Or.inr (Or.inr (Or.inl he))))) none]
  rw [replPassAux_id (fun c hc => fun he => h c hc (Or.inr (Or.inr (Or.inr (Or.inr he))))) none]

theorem mem_collapse4 {s : Str} {c : Char} (h : c ∈ collapse4 s) : c ∈ s := by
  unfold collapse4 at h
  exact mem_collapseRuns (mem_collapseRuns (mem_collapseRuns (mem_collapseRuns h)))

theorem collapse4_idem (s : Str) : collapse4 (collapse4 s) = collapse4 s := by
  have hd : NoRun '。' (collapse4 s) := by
    unfold collapse4
    exact noRun_collapseRuns_other _
      (noRun_collapseRuns_other _
        (noRun_collapseRuns_other _ (noRun_collapseRuns_self _ _)))
  have hc : NoRun '，' (collapse4 s) := by
    unfold collapse4
    exact noRun_collapseRuns_other _
      (noRun_collapseRuns_other _ (noRun_collapseRuns_self _ _))
  have he : NoRun '！' (collapse4 s) := by
    unfold collapse4
    exact noRun_collapseRuns_other _ (noRun_collapseRuns_self _ _)
  have hq : NoRun '？' (collapse4 s) := by
    unfold collapse4
    exact noRun_collapseRuns_self _ _
  conv_lhs => rw [collapse4]
  rw [collapseRuns_id_of_noRun hd, collapseRuns_id_of_noRun hc,
    collapseRuns_id_of_noRun he, collapseRuns_id_of_noRun hq]

/-! ### Claim C9 -/

/-- C9 (counterexample): punctuation normalization is not idempotent:
`!!` is converted to `！！` by the Latin-to-full-width passes (the
repeated-mark collapse runs first), and only the second application
collapses `！！` to `！`. -/
theorem c9_not_idempotent :
    normalizePunct (normalizePunct (("!!").data)) ≠ normalizePunct (("!!").data) := by
  decide

/-- C9 (amended): punctuation normalization is idempotent on every
string containing none of the convertible ASCII marks `,;:!?` (on such
strings the conversion passes are the identity and the repeated-mark
collapse is idempotent); it is not idempotent in general because the
collapse step runs before the conversion step. -/
theorem c9_idempotent_without_ascii_marks :
    ∀ s : Str, (∀ c ∈ s, ¬ (c = ',' ∨ c = ';' ∨ c = ':' ∨ c = '!' ∨ c = '?')) →
      normalizePunct (normalizePunct s) = normalizePunct s := by
  intro s hs
  have hs4 : ∀ c ∈ collapse4 s, ¬ (c = ',' ∨ c = ';' ∨ c = ':' ∨ c = '!' ∨ c = '?') :=
    fun c hc => hs c (mem_collapse4 hc)
  have hr : repl5 (collapse4 s) = collapse4 s := repl5_id hs4
  have h1 : normalizePunct s = collapse4 s := by rw [normalizePunct, hr]
  rw [h1, normalizePunct, collapse4_idem, hr]

/-- C9 witness: idempotence applied to the concrete string `你好。。！`. -/
theorem c9_idempotent_witness :
    normalizePunct (normalizePunct (("你好。。！").data)) = normalizePunct (("你好。。！").data) :=
  c9_idempotent_without_ascii_marks (("你好。。！").data) (by decide)

/-! ### Supporting lemmas for claim C10 -/

theorem length_collapseRuns_le (c : Char) (s : Str) :
    (collapseRuns c s).length ≤ s.length := by
  induction s with
  | nil => simp [collapseRuns]
  | cons x xs ih =>
    cases xs with
    | nil => simp [collapseRuns]
    | cons y t =>
      rw [collapseRuns]
      split
      · exact le_trans ih (by simp)
      · simpa using ih

theorem length_replPassAux (eng chn : Char) (s : Str) :
    ∀ prev, (replPassAux eng chn prev s).length = s.length := by
  induction s with
  | nil => intro prev; rfl
  | cons x xs ih =>
    intro prev
    rw [replPassAux]
    split
    · simp [ih (some x)]
    · simp [ih (some x)]

theorem length_normalizePunct_le (s : Str) :
    (normalizePunct s).length ≤ s.length := by
  unfold normalizePunct repl5 replPass collapse4
  rw [length_replPassAux, length_replPassAux, length_replPassAux,
    length_replPassAux, length_replPassAux]
  exact le_trans (length_collapseRuns_le _ _) (le_trans (length_collapseRuns_le _ _)
    (le_trans (length_collapseRuns_le _ _) (length_collapseRuns_le _ _)))

theorem length_dropWhileP_le (p : Char → Bool) (s : Str) :
    (s.dropWhile p).length ≤ s.length := by
  induction s with
  | nil => simp
  | cons x xs ih =>
    rw [List.dropWhile_cons]
    split
    · exact le_trans ih (by simp)
    · simp

theorem length_pyStrip_le (s : Str) : (pyStrip s).length ≤ s.length := by
  unfold pyStrip
  rw [List.length_reverse]
  refine le_trans (length_dropWhileP_le _ _) ?_
  rw [List.length_reverse]
  exact length_dropWhileP_le _ _

theorem smartTruncate_le (text : Str) (h : 80 < text.length) :
    (smartTruncate text 80).length ≤ 80 := by
  rw [smartTruncate, if_neg (by omega)]
  simp only []
  split
  · simp only [List.length_take]
    omega
  · simp [List.length_append, List.length_take]

theorem leadLengthControl_le (l : Str) : (leadLengthControl l).length ≤ 80 := by
  rw [leadLengthControl]
  split
  · omega
  · split
    · rename_i h1 h2
      exact smartTruncate_le l h2
    · omega

/-! ### Claim C10 -/

/-- C10 (confirmed): every lead returned by `_process_lead` has at most
80 code points — leads whose whitespace-collapsed form exceeds 80 are
smart-truncated to at most 80, and the subsequent punctuation
normalization and stripping never increase the length. -/
theorem c10_lead_length_bound :
    (∀ lead : Str, (processLead lead).length ≤ 80)
    ∧ (∀ text : Str, 80 < text.length → (smartTruncate text 80).length ≤ 80)
    ∧ (∀ s : Str, (normalizePunct s).length ≤ s.length)
    ∧ (∀ s : Str, (pyStrip s).length ≤ s.length) := by
  refine ⟨?_, smartTruncate_le, length_normalizePunct_le, length_pyStrip_le⟩
  intro lead
  rw [processLead]
  split
  · simp
  · exact le_trans (length_pyStrip_le _)
      (le_trans (length_normalizePunct_le _) (leadLengthControl_le _))

/-- C10 witness: the truncation bound applied to a concrete 100-character
lead. -/
theorem c10_lead_length_bound_witness :
    (smartTruncate (List.replicate 100 'x') 80).length ≤ 80 :=
  c10_lead_length_bound.2.1 (List.replicate 100 'x') (by simp)

/-! ### Claim C8 -/

/-- C8 (counterexample): on an original with number `5` and organization
`中国局` and a candidate with the different number `7`, missing numbers,
new numbers and missing organizations are all present, yet the score is
`1 − 0.3 − 0.2 = 0.5`: missing and new numbers subtract `0.3` once
jointly, not `0.3` each (which would give `0.2`). -/
theorem c8_single_number_deduction :
    (checkFactualConsistency (("中国局共5人").data) (Rewritten.mk "共7人" "" "")).score = 1/2
    ∧ (checkFactualConsistency (("中国局共5人").data) (Rewritten.mk "共7人" "" "")).numbersMatch = false
    ∧ (checkFactualConsistency (("中国局共5人").data) (Rewritten.mk "共7人" "" "")).entitiesMatch = false
    ∧ ((1 : ℚ) - 3/10 - 3/10 - 1/5 ≠ 1/2) := by
  have h1 : (missingNumbers (("中国局共5人").data) (Rewritten.mk "共7人" "" "")).isEmpty = false := by
    decide
  have h3 : (missingOrgsOf (("中国局共5人").data) (Rewritten.mk "共7人" "" "")).isEmpty = false := by
    decide
  refine ⟨?_, ?_, ?_, by norm_num⟩
  · norm_num [checkFactualConsistency, h1, h3, max_def]
  · norm_num [checkFactualConsistency, h1]
  · norm_num [checkFactualConsistency, h3]

/-- C8 (amended): the consistency sub-score starts at `1.0`; missing
numbers or newly introduced numbers subtract `0.3` once (jointly, not
each), missing organizations subtract `0.2`; the `max 0` floor never
binds, the score always lying in `[0.5, 1]`. -/
theorem c8_consistency_cases :
    ∀ (orig : Str) (rw : Rewritten),
      ((checkFactualConsistency orig rw).numbersMatch = true ∧
          (checkFactualConsistency orig rw).entitiesMatch = true →
        (checkFactualConsistency orig rw).score = 1)
      ∧ ((checkFactualConsistency orig rw).numbersMatch = true ∧
          (checkFactualConsistency orig rw).entitiesMatch = false →
        (checkFactualConsistency orig rw).score = 4/5)
      ∧ ((checkFactualConsistency orig rw).numbersMatch = false ∧
          (checkFactualConsistency orig rw).entitiesMatch = true →
        (checkFactualConsistency orig rw).score = 7/10)
      ∧ ((checkFactualConsistency orig rw).numbersMatch = false ∧
          (checkFactualConsistency orig rw).entitiesMatch = false →
        (checkFactualConsistency orig rw).score = 1/2)
      ∧ 1/2 ≤ (checkFactualConsistency orig rw).score
      ∧ (checkFactualConsistency orig rw).score ≤ 1 := by
  intro orig rw
  by_cases hb1 : ((missingNumbers orig rw).isEmpty && (newNumbers orig rw).isEmpty) = true
  · by_cases hb2 : (missingOrgsOf orig rw).isEmpty = true
    · norm_num [checkFactualConsistency, hb1, hb2, max_def]
    · rw [Bool.not_eq_true] at hb2
      norm_num [checkFactualConsistency, hb1, hb2, max_def]
  · rw [Bool.not_eq_true] at hb1
    by_cases hb2 : (missingOrgsOf orig rw).isEmpty = true
    · norm_num [checkFactualConsistency, hb1, hb2, max_def]
    · rw [Bool.not_eq_true] at hb2
      norm_num [checkFactualConsistency, hb1, hb2, max_def]

/-- C8 witness: the case analysis applied to a pair with no missing or
new numbers and no missing organizations. -/
theorem c8_consistency_cases_witness :
    (checkFactualConsistency (("共5人").data) (Rewritten.mk "共5人" "" "")).score = 1 :=
  (c8_consistency_cases (("共5人").data) (Rewritten.mk "共5人" "" "")).1
    ⟨by decide, by decide⟩

/-! ### Supporting lemmas for claims C6 and C7 -/

theorem xhfAvgDocLength_nonneg (corpus : List Sample) : 0 ≤ xhfAvgDocLength corpus := by
  unfold xhfAvgDocLength
  split
  · norm_num
  · positivity

theorem xhfNorm_pos (corpus : List Sample) (dl : Nat) : 0 < xhfNorm corpus dl := by
  unfold xhfNorm
  have h1 : 0 ≤ (dl : ℝ) / xhfAvgDocLength corpus :=
    div_nonneg (Nat.cast_nonneg _) (xhfAvgDocLength_nonneg _)
  nlinarith

theorem xhfDf_le (corpus : List Sample) (t : Str) : xhfDf corpus t ≤ corpus.length := by
  unfold xhfDf
  refine le_trans (List.length_filter_le _ _) ?_
  unfold xhfDocTokens
  rw [List.length_map]

theorem xhfIdf_nonneg {n df : Nat} (h : df ≤ n) : 0 ≤ xhfIdf n df := by
  unfold xhfIdf
  apply Real.log_nonneg
  have h0 : (df : ℝ) ≤ (n : ℝ) := Nat.cast_le.mpr h
  have h1 : (0 : ℝ) ≤ (n : ℝ) - (df : ℝ) + 0.5 := by linarith
  have h2 : (0 : ℝ) < (df : ℝ) + 0.5 := by positivity
  have h3 : (0 : ℝ) ≤ ((n : ℝ) - (df : ℝ) + 0.5) / ((df : ℝ) + 0.5) :=
    div_nonneg h1 (le_of_lt h2)
  linarith

theorem xhfTermScore_mono (corpus : List Sample) {d1 d2 : List Str} (t : Str)
    (hlen : d1.length = d2.length) (hcnt : d2.count t ≤ d1.count t) :
    xhfTermScore corpus d2 t ≤ xhfTermScore corpus d1 t := by
  unfold xhfTermScore
  by_cases hdf : xhfDf corpus t = 0
  · simp [hdf]
  · rw [if_neg hdf, if_neg hdf]
    have hidf : 0 ≤ xhfIdf corpus.length (xhfDf corpus t) :=
      xhfIdf_nonneg (xhfDf_le _ _)
    by_cases h2 : d2.count t = 0
    · rw [if_pos h2]
      split
      · exact le_refl 0
      · exact div_nonneg
          (mul_nonneg hidf (mul_nonneg (Nat.cast_nonneg _) (by norm_num)))
          (add_nonneg (Nat.cast_nonneg _) (le_of_lt (xhfNorm_pos _ _)))
    · have h1 : ¬ d1.count t = 0 := by omega
      rw [if_neg h2, if_neg h1, hlen]
      have hNpos : 0 < xhfNorm corpus d2.length := xhfNorm_pos _ _
      have hc : (d2.count t : ℝ) ≤ (d1.count t : ℝ) := Nat.cast_le.mpr hcnt
      have hc2 : (0 : ℝ) ≤ (d2.count t : ℝ) := Nat.cast_nonneg _
      rw [div_le_div_iff₀ (by linarith) (by linarith)]
      nlinarith [mul_nonneg (mul_nonneg hidf (by norm_num : (0:ℝ) ≤ 1.5 + 1))
        (mul_nonneg (sub_nonneg.mpr hc) (le_of_lt hNpos))]

/-! ### Claim C6 -/

/-- C6 (counterexample): the claim fails for the repository's second
BM25 implementation (`IntelligentRetriever._calculate_bm25_score`): in a
two-article index where every article contains the query term `甲`, its
IDF `log((2-2+0.5)/(2+0.5))` is negative, so the article of equal token
length containing the query's terms strictly more often scores strictly
lower. -/
theorem c6_ir_not_monotone :
    (irTokenize (articleText (Article.mk "甲甲乙" "" ""))).length
      = (irTokenize (articleText (Article.mk "甲丙丁" "" ""))).length
    ∧ (∀ t ∈ irQuery,
        (irTokenize (articleText (Article.mk "甲丙丁" "" ""))).count t
          ≤ (irTokenize (articleText (Article.mk "甲甲乙" "" ""))).count t)
    ∧ (irTokenize (articleText (Article.mk "甲丙丁" "" ""))).count (("甲").data)
        < (irTokenize (articleText (Article.mk "甲甲乙" "" ""))).count (("甲").data)
    ∧ irScore irArts irQuery 0 < irScore irArts irQuery 1 := by
  refine ⟨by decide, by decide, by decide, ?_⟩
  have hidf1 : irIdf 2 1 = 0 := by
    unfold irIdf
    push_cast
    rw [show ((2:ℝ) - 1 + 0.5) / (1 + 0.5) = 1 by norm_num]
    exact Real.log_one
  have hidf2 : irIdf 2 2 < 0 := by
    unfold irIdf
    push_cast
    rw [show ((2:ℝ) - 2 + 0.5) / (2 + 0.5) = 1/5 by norm_num]
    exact Real.log_neg (by norm_num) (by norm_num)
  have htok0 : irTokenize (articleText (irArts.getD 0 (Article.mk "" "" "")))
      = [['甲'], ['甲'], ['乙']] := by decide
  have htok1 : irTokenize (articleText (irArts.getD 1 (Article.mk "" "" "")))
      = [['甲'], ['丙'], ['丁']] := by decide
  have hdfa : irDf irArts ['甲'] = 2 := by decide
  have hdfb : irDf irArts ['乙'] = 1 := by decide
  have hsum : ((irDocTokens irArts).map List.length).sum = 6 := by decide
  have hlen : irArts.length = 2 := rfl
  simp only [irScore, irQuery, List.map_cons, List.map_nil, List.sum_cons, List.sum_nil]
  rw [if_pos (show (0 : Nat) < irArts.length from by rw [hlen]; norm_num),
    if_pos (show (1 : Nat) < irArts.length from by rw [hlen]; norm_num)]
  rw [htok0, htok1, hdfa, hdfb, hsum, hlen]
  rw [show (([['甲'], ['甲'], ['乙']] : List Str).count ['甲']) = 2 from by decide]
  rw [show (([['甲'], ['甲'], ['乙']] : List Str).count ['乙']) = 1 from by decide]
  rw [show (([['甲'], ['丙'], ['丁']] : List Str).count ['甲']) = 1 from by decide]
  rw [show (([['甲'], ['丙'], ['丁']] : List Str).count ['乙']) = 0 from by decide]
  rw [show ([['甲'], ['甲'], ['乙']] : List Str).length = 3 from rfl]
  rw [show ([['甲'], ['丙'], ['丁']] : List Str).length = 3 from rfl]
  rw [if_neg (show ¬ (2 : Nat) = 0 from by norm_num),
    if_neg (show ¬ (1 : Nat) = 0 from by norm_num)]
  rw [hidf1]
  push_cast
  norm_num
  nlinarith [hidf2]

/-- C6 (amended): BM25 monotonicity holds for
`XHFSampleRetriever._bm25_score`, whose IDF `log(x + 1)` is always
nonnegative: for any corpus and query, of two documents of equal token
length, the one containing every query term at least as often scores no
lower.  The claim fails for `IntelligentRetriever._calculate_bm25_score`
(negative IDF for terms in more than half the corpus). -/
theorem c6_xhf_monotone :
    ∀ (corpus : List Sample) (query : List Str) (d1 d2 : Sample),
      d1 ∈ corpus → d2 ∈ corpus →
      (tokenizeXHF (sampleText d1)).length = (tokenizeXHF (sampleText d2)).length →
      (∀ t ∈ query,
        (tokenizeXHF (sampleText d2)).count t ≤ (tokenizeXHF (sampleText d1)).count t) →
      xhfScore corpus query d2 ≤ xhfScore corpus query d1 := by
  intro corpus query d1 d2 _ _ hlen hcnt
  unfold xhfScore
  by_cases h0 : (tokenizeXHF (sampleText d1)).length = 0
  · have h0' : (tokenizeXHF (sampleText d2)).length = 0 := by rw [← hlen]; exact h0
    rw [if_pos h0, if_pos h0']
  · have h0' : ¬ (tokenizeXHF (sampleText d2)).length = 0 := by rw [← hlen]; exact h0
    rw [if_neg h0, if_neg h0']
    apply List.sum_le_sum
    intro t ht
    exact xhfTermScore_mono corpus t hlen (hcnt t ht)

/-- C6 witness: XHF monotonicity applied to a concrete two-document
corpus and the query term `烟草`. -/
theorem c6_xhf_monotone_witness :
    xhfScore [Sample.mk "烟草 烟草 工作" "" "", Sample.mk "烟草 发展 管理" "" ""]
        [("烟草").data] (Sample.mk "烟草 发展 管理" "" "")
      ≤ xhfScore [Sample.mk "烟草 烟草 工作" "" "", Sample.mk "烟草 发展 管理" "" ""]
        [("烟草").data] (Sample.mk "烟草 烟草 工作" "" "") :=
  c6_xhf_monotone
    [Sample.mk "烟草 烟草 工作" "" "", Sample.mk "烟草 发展 管理" "" ""]
    [("烟草").data] (Sample.mk "烟草 烟草 工作" "" "") (Sample.mk "烟草 发展 管理" "" "")
    (by decide) (by decide) (by decide) (by decide)

/-! ### Claim C7 -/

/-- C7 (confirmed): the two BM25 implementations diverge —
`XHFSampleRetriever` computes `idf = log((N - df + 0.5)/(df + 0.5) + 1)`
while `IntelligentRetriever` computes the same expression without the
`+ 1` addend, and the two IDF functions disagree (e.g. at `N = df = 2`
the former is positive, the latter negative). -/
theorem c7_idf_divergence :
    ∃ n df : Nat, 0 < df ∧ df ≤ n ∧ xhfIdf n df ≠ irIdf n df := by
  refine ⟨2, 2, by norm_num, le_refl 2, ?_⟩
  have h1 : 0 < xhfIdf 2 2 := by
    unfold xhfIdf
    push_cast
    rw [show ((2:ℝ) - 2 + 0.5) / (2 + 0.5) + 1 = 6/5 by norm_num]
    exact Real.log_pos (by norm_num)
  have h2 : irIdf 2 2 < 0 := by
    unfold irIdf
    push_cast
    rw [show ((2:ℝ) - 2 + 0.5) / (2 + 0.5) = 1/5 by norm_num]
    exact Real.log_neg (by norm_num) (by norm_num)
  intro heq
  rw [heq] at h1
  linarith

end Tobacco
